import Mathlib

/-!
Verification of the ProofPix concurrent vector-index manager, asset
fingerprinting pipeline, analysis parser and certificate generator.

The Go source is embedded shallowly: `float32` vector payloads are
modelled as exact integers `ℤ` — vector contents are opaque bit patterns
for every property proved here, only bit-for-bit equality and exact
distance comparisons matter, and no claim depends on float rounding —
`int64` sequence ids as `ℤ`, Go maps as association lists with
overwrite-on-insert, fallible calls as `Except String`.  The external
FAISS library (go-faiss) is not part of the repository; its contract is
modelled from the spec where the manager relies on it, and each such
definition is marked below.
-/

namespace ProofPix

/-! ## Vector index model (internal/index, `IndexManager`) -/

/-- Modelled from the spec: the external FAISS flat-L2 index
(`faiss.IndexFlatL2`, go-faiss).  The spec treats the nearest-neighbor
library as an external collaborator holding fixed-dimension vectors in
insertion order; `d` is the fixed dimension, `vecs` the stored vectors,
position = sequence id. -/
structure FaissIndex where
  d : ℕ
  vecs : List (List ℤ)
deriving DecidableEq

/-- `faiss.Index.Ntotal`: number of stored vectors, as an `int64`. -/
def FaissIndex.ntotal (idx : FaissIndex) : ℤ := idx.vecs.length

/-- Modelled from the spec: `faiss.Index.Add` of the external library.
Per the spec, a vector whose length differs from the fixed dimension is a
contract violation that propagates as an error; otherwise the vector is
appended, receiving the next sequence position. -/
def faissAdd (idx : FaissIndex) (v : List ℤ) : Except String FaissIndex :=
  if v.length ≠ idx.d then .error "dimension mismatch"
  else .ok { idx with vecs := idx.vecs ++ [v] }

/-- Squared Euclidean distance, the metric of the flat-L2 index. -/
def sqDist (v w : List ℤ) : ℤ := (List.zipWith (fun a b => (a - b) * (a - b)) v w).sum

/-- Ordering on (distance, sequence id): ascending distance, ties broken
by ascending sequence id, per the spec's tie-break contract. -/
def distLe (a b : ℤ × ℤ) : Bool :=
  decide (a.1 < b.1 ∨ (a.1 = b.1 ∧ a.2 ≤ b.2))

def insertSorted (le : α → α → Bool) (a : α) : List α → List α
  | [] => [a]
  | b :: l => if le a b then a :: b :: l else b :: insertSorted le a l

def sortByLe (le : α → α → Bool) (l : List α) : List α :=
  l.foldr (insertSorted le) []

/-- Modelled from the spec: `faiss.Index.Search` of the external library.
A query of mismatched dimension propagates as an error; otherwise up to
`k` nearest neighbors are returned by squared-L2 distance, ascending,
ties by ascending sequence id. -/
def faissSearch (idx : FaissIndex) (v : List ℤ) (k : ℕ) :
    Except String (List ℤ × List ℤ) :=
  if v.length ≠ idx.d then .error "dimension mismatch"
  else
    let scored := idx.vecs.enum.map fun p => (sqDist v p.2, (p.1 : ℤ))
    let top := (sortByLe distLe scored).take k
    .ok (top.map (·.1), top.map (·.2))

/-- Go-map lookup on the id map (`m.idMap[label]`). -/
def mapLookup (m : List (ℤ × String)) (k : ℤ) : Option String :=
  match m with
  | [] => none
  | (k', v) :: r => if k' = k then some v else mapLookup r k

/-- Go-map assignment `m.idMap[newID] = assetID`: overwrites any entry
with the same key, otherwise appends. -/
def mapInsert (m : List (ℤ × String)) (k : ℤ) (v : String) : List (ℤ × String) :=
  match m with
  | [] => [(k, v)]
  | p :: r => if p.1 = k then mapInsert r k v else p :: mapInsert r k v

/-- `index.IndexManager`: a FAISS index plus the `sequence_id →
external_id` map.  The `sync.RWMutex` serializes mutations; the embedding
is sequential, so each operation is a function of the state observed while
the lock is held. -/
structure IndexManager where
  index : Option FaissIndex
  idMap : List (ℤ × String)
deriving DecidableEq

/-- `IndexManager.HasIndex`. -/
def IndexManager.hasIndex (m : IndexManager) : Bool := m.index.isSome

/-- `IndexManager.Search` (part_000 lines 238–275): empty results when no
index is installed or it holds zero vectors; otherwise the FAISS search
runs and each returned label is translated through the id map, defaulting
to the empty string when the label is unmapped. -/
def IndexManager.search (m : IndexManager) (v : List ℤ) (k : ℕ) :
    Except String (List ℤ × List String) :=
  match m.index with
  | none => .ok ([], [])
  | some idx =>
    if idx.ntotal = 0 then .ok ([], [])
    else
      match faissSearch idx v k with
      | .error e => .error e
      | .ok pr =>
        .ok (pr.1, pr.2.map fun l => (mapLookup m.idMap l).getD "")

/-- `IndexManager.Add` (part_000 lines 278–304): fails when no index is
installed; otherwise records `newID = Ntotal()` before the insertion,
delegates to the FAISS add, and on success maps `newID` to the asset id.
An error leaves the manager unchanged (the Go method returns before any
mutation). -/
def IndexManager.add (m : IndexManager) (assetID : String) (v : List ℤ) :
    Except String IndexManager :=
  match m.index with
  | none => .error "index is not initialized"
  | some idx =>
    let newID : ℤ := idx.ntotal
    match faissAdd idx v with
    | .error e => .error e
    | .ok idx2 => .ok { index := some idx2, idMap := mapInsert m.idMap newID assetID }

/-- The snapshot blob: per the spec an opaque binary produced/consumed
only by the save/load pair; it carries exactly the serialized index. -/
abbrev Snapshot := FaissIndex

/-- Modelled from the spec: external `faiss.WriteIndex`; the snapshot
round-trips the index (spec §6: no compatibility beyond round-tripping). -/
def writeIndex (idx : FaissIndex) : Snapshot := idx

/-- Modelled from the spec: external `faiss.ReadIndex`. -/
def readIndex (s : Snapshot) : FaissIndex := s

/-- `IndexManager.Save` (part_000 lines 172–228): explicit error when no
index is installed, otherwise uploads the serialized index.  Nothing else
— in particular not the id map — enters the snapshot. -/
def IndexManager.save (m : IndexManager) : Except String Snapshot :=
  match m.index with
  | none => .error "no index to save: index is nil"
  | some idx => .ok (writeIndex idx)

/-- `IndexManager.Load` (part_000 lines 25–77): a missing snapshot is not
an error and leaves the manager unchanged; an existing snapshot is read
and installed as the active index.  The id map is not touched. -/
def IndexManager.load (m : IndexManager) (blob : Option Snapshot) : IndexManager :=
  match blob with
  | none => m
  | some s => { m with index := some (readIndex s) }

/-- A manager as freshly constructed by the worker (`&index.IndexManager{}`):
no index, nil id map. -/
def freshManager : IndexManager := { index := none, idMap := [] }

/-- The `(sequence_id, external_id, vector)` triples currently held by a
manager: each stored vector at its position, with the external id the id
map yields for that position (empty string when unmapped, as `Search`
reports it). -/
def IndexManager.entries (m : IndexManager) : List (ℤ × String × List ℤ) :=
  match m.index with
  | none => []
  | some idx =>
    idx.vecs.enum.map fun p => ((p.1 : ℤ), (mapLookup m.idMap (p.1 : ℤ)).getD "", p.2)

/-- Sequential composition of `Add` calls, one per `(external_id, vector)`
pair, in the order the writer lock is acquired. -/
def IndexManager.addAll (m : IndexManager) :
    List (String × List ℤ) → Except String IndexManager
  | [] => .ok m
  | p :: rest =>
    match m.add p.1 p.2 with
    | .error e => .error e
    | .ok m2 => m2.addAll rest

/-! ### Id-map lemmas -/

theorem mapLookup_insert_self (m : List (ℤ × String)) (k : ℤ) (v : String) :
    mapLookup (mapInsert m k v) k = some v := by
  induction m with
  | nil => simp [mapInsert, mapLookup]
  | cons p r ih =>
    by_cases hp : p.1 = k
    · simpa [mapInsert, hp] using ih
    · simpa [mapInsert, mapLookup, hp] using ih

theorem mapLookup_insert_ne (m : List (ℤ × String)) (k k' : ℤ) (v : String)
    (h : k' ≠ k) : mapLookup (mapInsert m k v) k' = mapLookup m k' := by
  induction m with
  | nil =>
    have hkk : ¬k = k' := fun hk => h hk.symm
    simp [mapInsert, mapLookup, hkk]
  | cons p r ih =>
    by_cases hp : p.1 = k
    · have hpk : ¬p.1 = k' := by rw [hp]; exact fun hk => h hk.symm
      rw [show mapInsert (p :: r) k v = mapInsert r k v from by simp [mapInsert, hp]]
      rw [ih]
      simp [mapLookup, hpk]
    · rw [show mapInsert (p :: r) k v = p :: mapInsert r k v from by simp [mapInsert, hp]]
      by_cases hpk : p.1 = k'
      · simp [mapLookup, hpk]
      · simp [mapLookup, hpk, ih]

/-- A dimension-correct `Add` on an installed index succeeds, appends the
vector, and records `sequence_id = size before insertion ↦ external_id`. -/
theorem add_ok (m : IndexManager) (idx : FaissIndex) (id : String) (v : List ℤ)
    (hm : m.index = some idx) (hd : v.length = idx.d) :
    m.add id v = .ok { index := some { idx with vecs := idx.vecs ++ [v] },
                       idMap := mapInsert m.idMap (idx.vecs.length : ℤ) id } := by
  unfold IndexManager.add faissAdd FaissIndex.ntotal
  rw [hm]
  simp [hd]

/-- Fold invariant for `addAll`: from any installed index, a run of
dimension-correct `Add`s appends the vectors in order and maps the fresh
sequence ids (base size, base size + 1, …) to the external ids, leaving
every other key of the id map untouched. -/
theorem addAll_spec (pairs : List (String × List ℤ)) :
    ∀ (m : IndexManager) (idx : FaissIndex), m.index = some idx →
    (∀ p ∈ pairs, (p.2).length = idx.d) →
    ∃ m2 idx2, m.addAll pairs = .ok m2 ∧ m2.index = some idx2 ∧
      idx2.d = idx.d ∧
      idx2.vecs = idx.vecs ++ pairs.map (·.2) ∧
      (∀ k : ℤ, (∀ i : ℕ, i < pairs.length → k ≠ (idx.vecs.length : ℤ) + i) →
        mapLookup m2.idMap k = mapLookup m.idMap k) ∧
      (∀ i : ℕ, (h : i < pairs.length) →
        mapLookup m2.idMap ((idx.vecs.length : ℤ) + i) = some (pairs.get ⟨i, h⟩).1) := by
  induction pairs with
  | nil =>
    intro m idx hm _
    exact ⟨m, idx, rfl, hm, rfl, by simp, fun k _ => rfl,
      fun i h => absurd h (by simp)⟩
  | cons p rest ih =>
    intro m idx hm hd
    have hstep := add_ok m idx p.1 p.2 hm (hd p (List.mem_cons_self p rest))
    set idx1 : FaissIndex := { idx with vecs := idx.vecs ++ [p.2] } with hidx1
    set m1 : IndexManager :=
      { index := some idx1, idMap := mapInsert m.idMap (idx.vecs.length : ℤ) p.1 } with hm1
    obtain ⟨m2, idx2, hall, hidx, hdim, hvecs, hpres, hnew⟩ :=
      ih m1 idx1 rfl (fun q hq => hd q (List.mem_cons_of_mem p hq))
    have hlen1 : (idx1.vecs.length : ℤ) = (idx.vecs.length : ℤ) + 1 := by
      simp [hidx1]
    refine ⟨m2, idx2, ?_, hidx, by rw [hdim], ?_, ?_, ?_⟩
    · show m.addAll (p :: rest) = .ok m2
      unfold IndexManager.addAll
      rw [hstep]
      exact hall
    · rw [hvecs, hidx1]
      simp
    · intro k hk
      have hk0 : k ≠ (idx.vecs.length : ℤ) := by
        have := hk 0 (by simp)
        simpa using this
      have hkr : ∀ i : ℕ, i < rest.length → k ≠ (idx1.vecs.length : ℤ) + i := by
        intro i hi
        have := hk (i + 1) (by simpa using Nat.succ_lt_succ hi)
        rw [hlen1]
        push_cast at this ⊢
        omega
      rw [hpres k hkr]
      show mapLookup m1.idMap k = mapLookup m.idMap k
      rw [hm1]
      exact mapLookup_insert_ne _ _ _ _ hk0
    · intro i h
      match i with
      | 0 =>
        have hkeep : ∀ j : ℕ, j < rest.length →
            (idx.vecs.length : ℤ) ≠ (idx1.vecs.length : ℤ) + j := by
          intro j _
          rw [hlen1]
          omega
        simp only [Nat.cast_zero, add_zero]
        rw [hpres _ hkeep]
        show mapLookup m1.idMap (idx.vecs.length : ℤ) = _
        rw [hm1]
        exact mapLookup_insert_self m.idMap (idx.vecs.length : ℤ) p.1
      | i + 1 =>
        have hi : i < rest.length := by simpa using Nat.lt_of_succ_lt_succ h
        have hstep2 := hnew i hi
        rw [hlen1] at hstep2
        have hcast : (idx.vecs.length : ℤ) + 1 + (i : ℤ)
            = (idx.vecs.length : ℤ) + ((i + 1 : ℕ) : ℤ) := by push_cast; ring
        rw [hcast] at hstep2
        exact hstep2

/-! ### C4, C5, C3, C1, C10 -/

/-- C4: every dimension-correct `Add` on an installed index assigns the
new vector `sequence_id = index size before insertion` and records
`sequence_id ↦ external_id`; and for any sequence of `M` successful `Add`
calls in writer-lock order starting from an empty installed index, the
index size ends at `M` and the assigned sequence ids are exactly
`0 .. M-1`, each mapped to the corresponding external id — no gaps, no
repeats. -/
theorem c4_monotonic_sequence_ids :
    (∀ (m : IndexManager) (idx : FaissIndex) (id : String) (v : List ℤ),
      m.index = some idx → v.length = idx.d →
      m.add id v = .ok { index := some { idx with vecs := idx.vecs ++ [v] },
                         idMap := mapInsert m.idMap (idx.vecs.length : ℤ) id })
    ∧
    (∀ (m : IndexManager) (idx : FaissIndex) (pairs : List (String × List ℤ)),
      m.index = some idx → idx.vecs = [] →
      (∀ p ∈ pairs, (p.2).length = idx.d) →
      ∃ m2 idx2, m.addAll pairs = .ok m2 ∧ m2.index = some idx2 ∧
        idx2.vecs.length = pairs.length ∧
        ∀ i : ℕ, (h : i < pairs.length) →
          mapLookup m2.idMap (i : ℤ) = some (pairs.get ⟨i, h⟩).1) := by
  constructor
  · exact add_ok
  · intro m idx pairs hm hempty hd
    obtain ⟨m2, idx2, hall, hidx, _, hvecs, _, hnew⟩ := addAll_spec pairs m idx hm hd
    refine ⟨m2, idx2, hall, hidx, ?_, ?_⟩
    · rw [hvecs, hempty]
      simp
    · intro i h
      have := hnew i h
      rw [hempty] at this
      simpa using this

/-- C4 witness: two `Add` calls from an empty installed 2-dimensional
index assign sequence ids 0 and 1 mapped to the two external ids, and the
index size ends at 2. -/
theorem c4_monotonic_sequence_ids_witness :
    ((freshManager.load (some ⟨2, []⟩)).index = some ⟨2, []⟩ ∧
      (⟨2, []⟩ : FaissIndex).vecs = [] ∧
      (∀ p ∈ [("a", [(1 : ℤ), 2]), ("b", [(3 : ℤ), 4])],
        (p.2).length = (⟨2, []⟩ : FaissIndex).d)) ∧
    ∃ m2 idx2,
      (freshManager.load (some ⟨2, []⟩)).addAll
          [("a", [(1 : ℤ), 2]), ("b", [(3 : ℤ), 4])] = .ok m2 ∧
      m2.index = some idx2 ∧
      idx2.vecs.length = [("a", [(1 : ℤ), 2]), ("b", [(3 : ℤ), 4])].length ∧
      ∀ i : ℕ, (h : i < [("a", [(1 : ℤ), 2]), ("b", [(3 : ℤ), 4])].length) →
        mapLookup m2.idMap (i : ℤ)
          = some ([("a", [(1 : ℤ), 2]), ("b", [(3 : ℤ), 4])].get ⟨i, h⟩).1 :=
  ⟨⟨rfl, rfl, by decide⟩,
    c4_monotonic_sequence_ids.2 _ ⟨2, []⟩ _ rfl rfl (by decide)⟩

/-- C5: `Search` on a manager with no installed index, or whose installed
index holds zero vectors, returns empty distances and empty external ids
with no error, for every query vector and every `k`. -/
theorem c5_empty_index_search (m : IndexManager) (v : List ℤ) (k : ℕ)
    (h : m.index = none ∨ ∃ idx, m.index = some idx ∧ idx.vecs = []) :
    m.search v k = .ok ([], []) := by
  rcases h with h | ⟨idx, h, hv⟩ <;> unfold IndexManager.search <;> rw [h]
  simp [FaissIndex.ntotal, hv]

/-- C5 witness: a fresh manager with no installed index returns empty
results for a concrete query. -/
theorem c5_empty_index_search_witness :
    (freshManager.index = none ∨
      ∃ idx, freshManager.index = some idx ∧ idx.vecs = []) ∧
    freshManager.search [1, 2, 3] 5 = .ok ([], []) :=
  ⟨Or.inl rfl, c5_empty_index_search freshManager [1, 2, 3] 5 (Or.inl rfl)⟩

/-- A manager with an installed index of dimension 1408 holding zero
vectors. -/
def emptyInstalled : IndexManager := { index := some ⟨1408, []⟩, idMap := [] }

/-- C3 counterexample: with an index installed, `Search` called with a
vector of length 0 ≠ 1408 returns empty results with no error — the
zero-vector check precedes the dimension check, so the claimed "always
fails with an explicit error" is violated. -/
theorem c3_counterexample :
    emptyInstalled.hasIndex = true ∧ ([] : List ℤ).length ≠ 1408 ∧
    emptyInstalled.search [] 5 = .ok ([], []) :=
  ⟨rfl, by decide, rfl⟩

/-- C3 (amended): on a manager with an installed index of dimension 1408,
`Add` with a vector of length ≠ 1408 always returns an explicit error and
produces no new state, and `Search` with such a vector returns an explicit
error whenever the index holds at least one vector (on an index of zero
vectors it returns empty results with no error instead). -/
theorem c3_dimension_enforcement (m : IndexManager) (idx : FaissIndex)
    (id : String) (v : List ℤ) (k : ℕ)
    (hm : m.index = some idx) (hdim : idx.d = 1408) (hv : v.length ≠ 1408) :
    (∃ e, m.add id v = .error e) ∧
    (idx.vecs ≠ [] → ∃ e, m.search v k = .error e) := by
  have hvd : v.length ≠ idx.d := by rw [hdim]; exact hv
  constructor
  · refine ⟨"dimension mismatch", ?_⟩
    simp only [IndexManager.add, hm]
    rw [show faissAdd idx v = .error "dimension mismatch" from by
      unfold faissAdd; rw [if_pos hvd]]
  · intro hne
    refine ⟨"dimension mismatch", ?_⟩
    simp only [IndexManager.search, hm]
    have hnt : idx.ntotal ≠ 0 := by
      unfold FaissIndex.ntotal
      simpa using hne
    rw [if_neg hnt]
    rw [show faissSearch idx v k = .error "dimension mismatch" from by
      unfold faissSearch; rw [if_pos hvd]]

/-- A manager with an installed 1408-dimensional index holding one vector
mapped to external id "a". -/
def oneVecManager : IndexManager :=
  { index := some ⟨1408, [List.replicate 1408 0]⟩, idMap := [(0, "a")] }

/-- C3 witness: on a 1408-dimensional index holding one vector, both `Add`
and `Search` with the empty (length-0) vector return explicit errors. -/
theorem c3_dimension_enforcement_witness :
    (oneVecManager.index = some ⟨1408, [List.replicate 1408 0]⟩ ∧
      (⟨1408, [List.replicate 1408 0]⟩ : FaissIndex).d = 1408 ∧
      ([] : List ℤ).length ≠ 1408 ∧
      (⟨1408, [List.replicate 1408 0]⟩ : FaissIndex).vecs ≠ []) ∧
    (∃ e, oneVecManager.add "b" [] = .error e) ∧
    (∃ e, oneVecManager.search [] 5 = .error e) := by
  have h := c3_dimension_enforcement oneVecManager ⟨1408, [List.replicate 1408 0]⟩
    "b" [] 5 rfl rfl (by decide)
  exact ⟨⟨rfl, rfl, by decide, List.cons_ne_nil _ _⟩, h.1, h.2 (List.cons_ne_nil _ _)⟩

/-- A manager holding one 2-dimensional vector mapped to external id
"a", about to be saved. -/
def savedManager : IndexManager := { index := some ⟨2, [[1, 2]]⟩, idMap := [(0, "a")] }

/-- C1 counterexample: saving `savedManager` and loading the snapshot into
a fresh manager does not reproduce the same `(sequence_id, external_id,
vector)` triples — sequence id 0 was mapped to "a" before the save and to
"" after the load, because the snapshot carries only the serialized index
and never the id map. -/
theorem c1_counterexample :
    ∃ s, savedManager.save = .ok s ∧
      (freshManager.load (some s)).entries ≠ savedManager.entries :=
  ⟨⟨2, [[1, 2]]⟩, rfl, by decide⟩

/-- C1 (amended): the snapshot round-trips the vectors only.  For every
manager holding an installed index, `Save` followed by `Load` on a fresh
manager reproduces the same vectors bit-for-bit at the same sequence
positions, but the `sequence_id → external_id` mapping is not part of the
snapshot: on the freshly loaded manager every sequence id reads back as
the empty string. -/
theorem c1_snapshot_roundtrip (m fresh : IndexManager) (idx : FaissIndex)
    (hm : m.index = some idx) (hf : fresh.idMap = []) :
    ∃ s, m.save = .ok s ∧
      (fresh.load (some s)).index = some idx ∧
      (fresh.load (some s)).entries
        = idx.vecs.enum.map fun p => ((p.1 : ℤ), "", p.2) := by
  refine ⟨writeIndex idx, ?_, rfl, ?_⟩
  · unfold IndexManager.save
    rw [hm]
  · show ({ fresh with index := some idx } : IndexManager).entries = _
    unfold IndexManager.entries
    simp [hf, mapLookup]

/-- C1 witness: the vectors-only round-trip evaluated on `savedManager`:
the single stored vector survives bit-for-bit at sequence id 0, whose
external id reads back as "". -/
theorem c1_snapshot_roundtrip_witness :
    (savedManager.index = some ⟨2, [[1, 2]]⟩ ∧ freshManager.idMap = []) ∧
    ∃ s, savedManager.save = .ok s ∧
      (freshManager.load (some s)).index = some ⟨2, [[1, 2]]⟩ ∧
      (freshManager.load (some s)).entries
        = (⟨2, [[1, 2]]⟩ : FaissIndex).vecs.enum.map fun p => ((p.1 : ℤ), "", p.2) :=
  ⟨⟨rfl, rfl⟩, c1_snapshot_roundtrip savedManager freshManager ⟨2, [[1, 2]]⟩ rfl rfl⟩

/-- Any search on a manager whose id map is empty reports every hit's
external id as the empty string. -/
theorem search_empty_idMap (m : IndexManager) (v : List ℤ) (k : ℕ)
    (dists : List ℤ) (ids : List String)
    (hmap : m.idMap = []) (hok : m.search v k = .ok (dists, ids)) :
    ∀ id ∈ ids, id = "" := by
  cases hidx : m.index with
  | none =>
    simp only [IndexManager.search, hidx] at hok
    cases hok
    simp
  | some idx =>
    simp only [IndexManager.search, hidx] at hok
    by_cases hz : idx.ntotal = 0
    · rw [if_pos hz] at hok
      cases hok
      simp
    · rw [if_neg hz] at hok
      cases hsearch : faissSearch idx v k with
      | error e => rw [hsearch] at hok; cases hok
      | ok pr =>
        rw [hsearch] at hok
        simp only [Except.ok.injEq, Prod.mk.injEq] at hok
        intro id hid
        rw [← hok.2, hmap] at hid
        simp only [List.mem_map, mapLookup] at hid
        obtain ⟨l, _, hl⟩ := hid
        simpa using hl.symm

/-- C10: `Search` never fails because of a missing id-mapping.  On an
installed non-empty index a dimension-correct search always succeeds, and
the external ids it returns are exactly the id-map lookups of the hit
labels with the empty string as default for unmapped labels; in
particular, after `Load` of an existing snapshot into a fresh manager
(whose id map is empty, since `Load` never restores one) every returned
external id is the empty string. -/
theorem c10_unmapped_hits_empty_string :
    (∀ (m : IndexManager) (idx : FaissIndex) (v : List ℤ) (k : ℕ),
      m.index = some idx → idx.vecs ≠ [] → v.length = idx.d →
      ∃ (dists : List ℤ) (labels : List ℤ), m.search v k
        = .ok (dists, labels.map fun l => (mapLookup m.idMap l).getD ""))
    ∧
    (∀ (fresh : IndexManager) (s : Snapshot) (v : List ℤ) (k : ℕ)
      (dists : List ℤ) (ids : List String),
      fresh.idMap = [] →
      (fresh.load (some s)).search v k = .ok (dists, ids) →
      ∀ id ∈ ids, id = "") := by
  constructor
  · intro m idx v k hm hne hdim
    simp only [IndexManager.search, hm]
    have hnt : idx.ntotal ≠ 0 := by
      unfold FaissIndex.ntotal
      simpa using hne
    rw [if_neg hnt]
    have hfs : faissSearch idx v k = .ok
        ((((sortByLe distLe (idx.vecs.enum.map fun p => (sqDist v p.2, (p.1 : ℤ)))).take k).map (·.1)),
          (((sortByLe distLe (idx.vecs.enum.map fun p => (sqDist v p.2, (p.1 : ℤ)))).take k).map (·.2))) := by
      unfold faissSearch
      rw [if_neg (by simpa using hdim)]
    rw [hfs]
    exact ⟨_, _, rfl⟩
  · intro fresh s v k dists ids hmap hok
    have hmap2 : (fresh.load (some s)).idMap = [] := by
      unfold IndexManager.load
      exact hmap
    exact search_empty_idMap _ v k dists ids hmap2 hok

/-- C10 witness: searching a loaded snapshot holding one vector from a
fresh manager succeeds and returns "" as the hit's external id; and on
`oneVecManager` a dimension-correct search succeeds with ids given by the
lookup-or-"" rule. -/
theorem c10_unmapped_hits_empty_string_witness :
    (oneVecManager.index = some ⟨1408, [List.replicate 1408 0]⟩ ∧
      (⟨1408, [List.replicate 1408 0]⟩ : FaissIndex).vecs ≠ [] ∧
      (List.replicate 1408 (0 : ℤ)).length = (⟨1408, [List.replicate 1408 0]⟩ : FaissIndex).d ∧
      ∃ (dists : List ℤ) (labels : List ℤ), oneVecManager.search (List.replicate 1408 0) 5
        = .ok (dists, labels.map fun l => (mapLookup oneVecManager.idMap l).getD "")) ∧
    (freshManager.idMap = [] ∧
      (freshManager.load (some ⟨2, [[1, 2]]⟩)).search [5, 5] 3 = .ok ([25], [""]) ∧
      ∀ id ∈ ([""] : List String), id = "") := by
  have hs : (freshManager.load (some ⟨2, [[1, 2]]⟩)).search [5, 5] 3 = .ok ([25], [""]) := rfl
  refine ⟨⟨rfl, List.cons_ne_nil _ _, by rw [List.length_replicate], ?_⟩, rfl, hs, ?_⟩
  · exact c10_unmapped_hits_empty_string.1 oneVecManager ⟨1408, [List.replicate 1408 0]⟩
      (List.replicate 1408 0) 5 rfl (List.cons_ne_nil _ _) (by rw [List.length_replicate])
  · exact c10_unmapped_hits_empty_string.2 freshManager ⟨2, [[1, 2]]⟩ [5, 5] 3 [25] [""] rfl hs

/-! ## Analysis parser (cmd/fingerprint-worker/analysis.go, `parseAnalysis`)

The two regexes are fixed:
  score:     `(?i)confidence\s+score:\s*([0-9]*\.?[0-9]+)`
  narrative: `(?i)justification:\s*(.+?)(?:\n\n|\z)`
Both are embedded as deterministic scanners implementing RE2's
leftmost-match semantics for these particular patterns, including the
greedy/lazy behavior of the quantifiers. -/

/-- RE2 Perl class `\s` = `[\t\n\f\r ]`. -/
def isSpaceChar (c : Char) : Bool :=
  c == '\t' || c == '\n' || c == '\x0c' || c == '\r' || c == ' '

/-- RE2 class `[0-9]`. -/
def isDigitChar (c : Char) : Bool := c.isDigit

/-- Case-insensitive literal match (`(?i)` on the ASCII label `pat`,
given lowercase): on success returns the remaining input. -/
def matchCI : List Char → List Char → Option (List Char)
  | [], cs => some cs
  | _, [] => none
  | p :: ps, c :: cs => if c.toLower = p then matchCI ps cs else none

/-- Greedy match of `[0-9]*\.?[0-9]+` at the head of `cs`, returning the
captured characters: the leading digit run, plus a following '.' and its
digit run when at least one digit follows the dot (the backtracking of
the greedy quantifiers collapses to exactly this rule). -/
def matchNumber (cs : List Char) : Option (List Char) :=
  let d1 := cs.takeWhile isDigitChar
  match cs.dropWhile isDigitChar with
  | '.' :: r2 =>
    let d2 := r2.takeWhile isDigitChar
    if d2 ≠ [] then some (d1 ++ '.' :: d2)
    else if d1 ≠ [] then some d1 else none
  | _ => if d1 ≠ [] then some d1 else none

/-- The score regex anchored at the current position: `confidence`, one
or more `\s`, `score:`, any `\s`, then the number capture.  (`\s+`/`\s*`
are deterministic here because `\s`, the literal `s` of `score:` and the
number's first character are pairwise disjoint.) -/
def matchConfAt (cs : List Char) : Option (List Char) :=
  match matchCI "confidence".data cs with
  | none => none
  | some r1 =>
    if r1.takeWhile isSpaceChar = [] then none
    else
      match matchCI "score:".data (r1.dropWhile isSpaceChar) with
      | none => none
      | some r2 => matchNumber (r2.dropWhile isSpaceChar)

/-- Leftmost match of the score regex (`FindStringSubmatch`): capture of
the first position where it matches. -/
def findConf : List Char → Option (List Char)
  | [] => none
  | c :: cs =>
    match matchConfAt (c :: cs) with
    | some cap => some cap
    | none => findConf cs

/-- Lazy capture `(.+?)(?:\n\n|\z)`: the shortest non-empty run of
non-newline characters after which the input continues with a blank line
or ends. -/
def lazyCap : List Char → Option (List Char)
  | [] => none
  | c :: rest =>
    if c = '\n' then none
    else
      match rest with
      | [] => some [c]
      | '\n' :: '\n' :: _ => some [c]
      | _ =>
        match lazyCap rest with
        | some cap => some (c :: cap)
        | none => none

/-- `\s*` before the lazy capture, with regex backtracking: the engine
first consumes the maximal whitespace run (`i` characters) and gives one
back at a time until the tail matches. -/
def tryCaptures (rest : List Char) : ℕ → Option (List Char)
  | 0 => lazyCap rest
  | i + 1 =>
    match lazyCap (rest.drop (i + 1)) with
    | some cap => some cap
    | none => tryCaptures rest i

/-- The narrative regex anchored at the current position. -/
def matchJustAt (cs : List Char) : Option (List Char) :=
  match matchCI "justification:".data cs with
  | none => none
  | some r1 => tryCaptures r1 (r1.takeWhile isSpaceChar).length

/-- Leftmost match of the narrative regex. -/
def findJust : List Char → Option (List Char)
  | [] => none
  | c :: cs =>
    match matchJustAt (c :: cs) with
    | some cap => some cap
    | none => findJust cs

def digitsToNat (ds : List Char) : ℕ :=
  ds.foldl (fun n c => 10 * n + (c.toNat - 48)) 0

/-- The digits after the decimal point of a captured literal, when it has
one. -/
def fracPart (cap : List Char) : Option (List Char) :=
  match cap.dropWhile isDigitChar with
  | '.' :: fp => some fp
  | _ => none

/-- The exact numeric value of a captured `[0-9]*\.?[0-9]+` literal. -/
def numValue (cap : List Char) : ℚ :=
  match fracPart cap with
  | some fp =>
    (digitsToNat (cap.takeWhile isDigitChar) : ℚ) + (digitsToNat fp : ℚ) / (10 : ℚ) ^ fp.length
  | none => (digitsToNat (cap.takeWhile isDigitChar) : ℚ)

/-! ### IEEE-754 binary64 model

analysis.go routes the captured literal through `strconv.ParseFloat`
(correctly rounded decimal → binary64, round to nearest, ties to even),
multiplies by 100 in `float64`, and truncates with `int(...)` (line 26:
`score = int(floatScore * 100)`).  That arithmetic is embedded exactly
over integers: a nonnegative double is a dyadic `m·2^s`. -/

/-- A nonnegative `float64` value, exactly: `fin m s` is the dyadic
`m·2^s` (`m = 0` only for zero), `inf` is `+Inf`. -/
inductive F64 where
  | fin (m : ℕ) (s : ℤ)
  | inf
deriving DecidableEq

/-- Round `a / b` to the nearest integer, ties to even. -/
def roundHalfEven (a b : ℕ) : ℕ :=
  if b < 2 * (a % b) then a / b + 1
  else if 2 * (a % b) < b then a / b
  else if (a / b) % 2 = 0 then a / b else a / b + 1

/-- Least `t ≥ 1` with `num·2^t ≥ den` (for `num < den`), within fuel. -/
def findShift (num den : ℕ) : ℕ → Option ℕ
  | 0 => none
  | fuel + 1 =>
    if den ≤ num * 2 then some 1
    else (findShift (num * 2) den fuel).map (· + 1)

/-- Fuelled binary logarithm (structural, so that it evaluates in the
kernel). -/
def log2F : ℕ → ℕ → ℕ
  | 0, _ => 0
  | fuel + 1, n => if 2 ≤ n then log2F fuel (n / 2) + 1 else 0

def natLog2 (n : ℕ) : ℕ := log2F n n

/-- `⌊log₂ (num/den)⌋` of a positive ratio; `none` when the ratio is
below `2^-1200`, far under half the least subnormal, so the value rounds
to zero. -/
def ratExp (num den : ℕ) : Option ℤ :=
  if den ≤ num then some (natLog2 (num / den) : ℤ)
  else
    match findShift num den 1200 with
    | none => none
    | some t => some (-(t : ℤ))

/-- Round `num/den` at scale `2^s`: the mantissa is the half-even
rounding of `(num/den)/2^s`; a result at or above `2^1024` overflows to
`inf`. -/
def roundAt (num den : ℕ) (s : ℤ) : F64 :=
  let m := roundHalfEven (num * 2 ^ (-s).toNat) (den * 2 ^ s.toNat)
  if 0 ≤ s ∧ 2 ^ 1024 ≤ m * 2 ^ s.toNat then .inf else .fin m s

/-- Correctly rounded IEEE-754 binary64 (round to nearest, ties to even)
of the nonnegative rational `num/den`: mantissa scale `2^(E-52)` for
normal values (`E = ⌊log₂ q⌋`), floored at `2^-1074` for subnormals.
Validated against double arithmetic on the literals evaluated below
(0.29 ↦ 28 after scaling, 0.98 ↦ 98, …). -/
def roundPosRat (num den : ℕ) : F64 :=
  if num = 0 then .fin 0 0
  else
    match ratExp num den with
    | none => .fin 0 0
    | some e => roundAt num den (max (e - 52) (-1074))

/-- The captured literal's digits as an integer: `value =
capMantissa / 10^capScale`. -/
def capMantissa (cap : List Char) : ℕ :=
  match fracPart cap with
  | some fp => digitsToNat (cap.takeWhile isDigitChar) * 10 ^ fp.length + digitsToNat fp
  | none => digitsToNat (cap.takeWhile isDigitChar)

def capScale (cap : List Char) : ℕ :=
  match fracPart cap with
  | some fp => fp.length
  | none => 0

/-- `strconv.ParseFloat(scoreMatch[1], 64)`: the captured decimal,
correctly rounded to binary64; `inf` is the overflow case, which
ParseFloat reports as ErrRange (the underflow ErrRange case — a nonzero
decimal rounding to zero — is recognized in `parseAnalysis` below). -/
def goParseFloat (cap : List Char) : F64 :=
  roundPosRat (capMantissa cap) (10 ^ capScale cap)

/-- The `float64` multiplication `floatScore * 100`: the exact product,
re-rounded to binary64. -/
def f64Mul100 : F64 → F64
  | .inf => .inf
  | .fin m s =>
    if s < 0 then roundPosRat (m * 100) (2 ^ (-s).toNat)
    else roundPosRat (m * 100 * 2 ^ s.toNat) 1

/-- Go's `int(x)` for a nonnegative `float64`: truncation toward zero.
A value outside the `int64` range (or `+Inf`) is implementation-dependent
in Go; modelled as amd64's result, `math.MinInt64`.  No theorem below
depends on the out-of-range case. -/
def f64TruncToInt : F64 → ℤ
  | .inf => -(2 ^ 63)
  | .fin m s =>
    if 0 ≤ s then
      if m * 2 ^ s.toNat < 2 ^ 63 then ((m * 2 ^ s.toNat : ℕ) : ℤ) else -(2 ^ 63)
    else
      if m / 2 ^ (-s).toNat < 2 ^ 63 then ((m / 2 ^ (-s).toNat : ℕ) : ℤ) else -(2 ^ 63)

/-- `parseAnalysis` (analysis.go lines 10–39), returning Go's
`(score, narrative, err)` result triple with `err : Option String`.
The captured literal goes through `strconv.ParseFloat`, whose ErrRange
cases — overflow to `+Inf`, and a nonzero decimal underflowing to zero —
take the parse-error return of lines 21–23; then `score =
int(floatScore * 100)` in `float64`.  A missing score pattern and a
missing justification pattern each return `(0, "", error)`; on success
the narrative is the lazy capture verbatim. -/
def parseAnalysis (rawText : String) : ℤ × String × Option String :=
  match findConf rawText.data with
  | none => (0, "", some "confidence score not found in raw text")
  | some cap =>
    match goParseFloat cap with
    | .inf => (0, "", some "failed to parse confidence score")
    | .fin m s =>
      if m = 0 ∧ capMantissa cap ≠ 0 then
        (0, "", some "failed to parse confidence score")
      else
        match findJust rawText.data with
        | none => (0, "", some "justification text not found in raw text")
        | some ncap => (f64TruncToInt (f64Mul100 (.fin m s)), String.mk ncap, none)

/-! ### Bounds of the float pipeline -/

theorem roundHalfEven_le_div_succ (a b : ℕ) : roundHalfEven a b ≤ a / b + 1 := by
  unfold roundHalfEven
  split_ifs <;> omega

theorem roundHalfEven_mul_self (N b : ℕ) (hb : 0 < b) :
    roundHalfEven (N * b) b = N := by
  unfold roundHalfEven
  rw [Nat.mul_mod_left, Nat.mul_div_cancel _ hb]
  rw [if_neg (by omega), if_pos (by omega)]

theorem log2F_le (fuel : ℕ) : ∀ n k : ℕ, n < 2 ^ (k + 1) → log2F fuel n ≤ k := by
  induction fuel with
  | zero => intro n k _; exact Nat.zero_le k
  | succ f ih =>
    intro n k h
    show (if 2 ≤ n then log2F f (n / 2) + 1 else 0) ≤ k
    by_cases h2 : 2 ≤ n
    · rw [if_pos h2]
      cases k with
      | zero =>
        rw [pow_one] at h
        omega
      | succ j =>
        have hsplit : n < 2 * 2 ^ (j + 1) := by
          have hp := h
          rw [pow_succ] at hp
          omega
        have hdiv : n / 2 < 2 ^ (j + 1) := Nat.div_lt_of_lt_mul hsplit
        exact Nat.succ_le_succ (ih (n / 2) j hdiv)
    · rw [if_neg h2]
      exact Nat.zero_le k

/-- Rounding never overshoots an integer bound: if `num/den ≤ c` with
`c ≤ 2^52`, the rounded double at a nonpositive scale `s` is at most `c`
(`m ≤ c·2^-s`). -/
theorem roundAt_le (num den c : ℕ) (s : ℤ) (hden : 0 < den) (hcs : c ≤ 2 ^ 52)
    (hs : s ≤ 0) (h : num ≤ c * den) :
    ∃ m, roundAt num den s = .fin m s ∧ m ≤ c * 2 ^ (-s).toNat := by
  have hb : den * 2 ^ s.toNat = den := by
    rw [Int.toNat_of_nonpos hs]
    simp
  have hbound : roundHalfEven (num * 2 ^ (-s).toNat) (den * 2 ^ s.toNat)
      ≤ c * 2 ^ (-s).toNat := by
    rw [hb]
    have hle : num * 2 ^ (-s).toNat ≤ c * 2 ^ (-s).toNat * den := by
      calc num * 2 ^ (-s).toNat ≤ c * den * 2 ^ (-s).toNat :=
            Nat.mul_le_mul_right _ h
        _ = c * 2 ^ (-s).toNat * den := by ring
    rcases Nat.lt_or_ge (num * 2 ^ (-s).toNat) (c * 2 ^ (-s).toNat * den) with hlt | hge
    · have hd : num * 2 ^ (-s).toNat / den < c * 2 ^ (-s).toNat :=
        (Nat.div_lt_iff_lt_mul hden).mpr hlt
      have hre := roundHalfEven_le_div_succ (num * 2 ^ (-s).toNat) den
      omega
    · have heq : num * 2 ^ (-s).toNat = c * 2 ^ (-s).toNat * den :=
        le_antisymm hle hge
      rw [heq, roundHalfEven_mul_self _ _ hden]
  refine ⟨_, ?_, hbound⟩
  unfold roundAt
  rw [if_neg]
  rintro ⟨hs0, hbig⟩
  have hts : s.toNat = 0 := Int.toNat_of_nonpos hs
  have htn : (-s).toNat = 0 := Int.toNat_of_nonpos (by omega)
  simp only [hts, htn, pow_zero, mul_one] at hbound hbig
  omega

theorem roundPosRat_le (num den c : ℕ) (hden : 0 < den) (hcs : c ≤ 2 ^ 52)
    (h : num ≤ c * den) :
    ∃ m s, roundPosRat num den = .fin m s ∧ s ≤ 0 ∧ m ≤ c * 2 ^ (-s).toNat := by
  unfold roundPosRat
  by_cases h0 : num = 0
  · rw [if_pos h0]
    exact ⟨0, 0, rfl, le_refl 0, Nat.zero_le _⟩
  · rw [if_neg h0]
    cases hre : ratExp num den with
    | none => exact ⟨0, 0, rfl, le_refl 0, Nat.zero_le _⟩
    | some e =>
      have he : e ≤ 52 := by
        unfold ratExp at hre
        by_cases hge : den ≤ num
        · rw [if_pos hge] at hre
          have hre2 : (natLog2 (num / den) : ℤ) = e := by
            simpa using hre
          have hq : num / den ≤ c := by
            calc num / den ≤ c * den / den := Nat.div_le_div_right h
              _ = c := Nat.mul_div_cancel c hden
          have hlog : natLog2 (num / den) ≤ 52 :=
            log2F_le _ _ 52 (lt_of_le_of_lt (le_trans hq hcs) (by norm_num))
          rw [← hre2]
          exact_mod_cast hlog
        · rw [if_neg hge] at hre
          cases hfs : findShift num den 1200 with
          | none =>
            rw [hfs] at hre
            cases hre
          | some t =>
            rw [hfs] at hre
            injection hre with hneg
            omega
      have hs : max (e - 52) (-1074) ≤ 0 := by omega
      obtain ⟨m, hm, hbnd⟩ := roundAt_le num den c _ hden hcs hs h
      exact ⟨m, _, hm, hs, hbnd⟩

theorem goParseFloat_le_one (cap : List Char)
    (h : capMantissa cap ≤ 10 ^ capScale cap) :
    ∃ m s, goParseFloat cap = .fin m s ∧ s ≤ 0 ∧ m ≤ 2 ^ (-s).toNat := by
  obtain ⟨m, s, h1, h2, h3⟩ := roundPosRat_le (capMantissa cap) (10 ^ capScale cap) 1
    (by positivity) (by norm_num) (by simpa using h)
  exact ⟨m, s, h1, h2, by simpa using h3⟩

theorem f64Mul100_le (m : ℕ) (s : ℤ) (hs : s ≤ 0) (hm : m ≤ 2 ^ (-s).toNat) :
    ∃ m2 s2, f64Mul100 (.fin m s) = .fin m2 s2 ∧ s2 ≤ 0 ∧ m2 ≤ 100 * 2 ^ (-s2).toNat := by
  simp only [f64Mul100]
  by_cases hneg : s < 0
  · rw [if_pos hneg]
    refine roundPosRat_le (m * 100) (2 ^ (-s).toNat) 100 (by positivity) (by norm_num) ?_
    calc m * 100 ≤ 2 ^ (-s).toNat * 100 := Nat.mul_le_mul_right _ hm
      _ = 100 * 2 ^ (-s).toNat := by ring
  · rw [if_neg hneg]
    have hz : s = 0 := le_antisymm hs (not_lt.mp hneg)
    subst hz
    have hm1 : m ≤ 1 := by simpa using hm
    refine roundPosRat_le (m * 100 * 2 ^ (0 : ℤ).toNat) 1 100 one_pos (by norm_num) ?_
    simp only [Int.toNat_zero, pow_zero, mul_one]
    omega

theorem f64TruncToInt_le (m : ℕ) (s : ℤ) (hs : s ≤ 0)
    (hm : m ≤ 100 * 2 ^ (-s).toNat) :
    0 ≤ f64TruncToInt (.fin m s) ∧ f64TruncToInt (.fin m s) ≤ 100 := by
  have h63 : (100 : ℕ) < 2 ^ 63 := by norm_num
  simp only [f64TruncToInt]
  by_cases h0 : 0 ≤ s
  · have hz : s = 0 := le_antisymm hs h0
    subst hz
    have hm1 : m ≤ 100 := by simpa using hm
    rw [if_pos h0]
    have ht : m * 2 ^ (0 : ℤ).toNat < 2 ^ 63 := by
      simp only [Int.toNat_zero, pow_zero, mul_one]
      omega
    rw [if_pos ht]
    constructor
    · exact Int.natCast_nonneg _
    · have : m * 2 ^ (0 : ℤ).toNat ≤ 100 := by
        simp only [Int.toNat_zero, pow_zero, mul_one]
        exact hm1
      exact_mod_cast this
  · rw [if_neg h0]
    have hE : 0 < 2 ^ (-s).toNat := Nat.pos_pow_of_pos _ (by norm_num)
    have ht100 : m / 2 ^ (-s).toNat ≤ 100 := by
      calc m / 2 ^ (-s).toNat ≤ 100 * 2 ^ (-s).toNat / 2 ^ (-s).toNat :=
            Nat.div_le_div_right hm
        _ = 100 := Nat.mul_div_cancel 100 hE
    rw [if_pos (by omega)]
    exact ⟨Int.natCast_nonneg _, by exact_mod_cast ht100⟩

theorem numValue_le_one_iff (cap : List Char) :
    numValue cap ≤ 1 ↔ capMantissa cap ≤ 10 ^ capScale cap := by
  unfold numValue capMantissa capScale
  cases h : fracPart cap with
  | none =>
    simp only []
    rw [pow_zero]
    norm_cast
  | some fp =>
    simp only []
    have hpow : (0 : ℚ) < (10 : ℚ) ^ fp.length := by positivity
    have hrw : (digitsToNat (cap.takeWhile isDigitChar) : ℚ)
        + (digitsToNat fp : ℚ) / (10 : ℚ) ^ fp.length
        = ((digitsToNat (cap.takeWhile isDigitChar) : ℚ) * (10 : ℚ) ^ fp.length
            + (digitsToNat fp : ℚ)) / (10 : ℚ) ^ fp.length := by
      field_simp
    rw [hrw, div_le_one hpow]
    norm_cast

/-! ### C6, C7 -/

/-- C6: the exact test-suite input parses to score 98 with the
justification sentence as narrative and no error; and every input in
which either labeled pattern is absent yields a parse error together with
score 0 and empty narrative. -/
theorem c6_parse_contract :
    parseAnalysis "Confidence Score: 0.98\n\nJustification: The lighting and shadows appear natural."
      = (98, "The lighting and shadows appear natural.", none)
    ∧ ∀ t : String, (findConf t.data = none ∨ findJust t.data = none) →
        ∃ e, parseAnalysis t = (0, "", some e) := by
  constructor
  · decide
  · intro t h
    cases hc : findConf t.data with
    | none =>
      refine ⟨"confidence score not found in raw text", ?_⟩
      simp only [parseAnalysis, hc]
    | some cap =>
      rcases h with h | h
      · rw [h] at hc
        cases hc
      · cases hpf : goParseFloat cap with
        | inf =>
          exact ⟨"failed to parse confidence score",
            by simp only [parseAnalysis, hc, hpf]⟩
        | fin m s =>
          by_cases hund : m = 0 ∧ capMantissa cap ≠ 0
          · exact ⟨"failed to parse confidence score",
              by simp only [parseAnalysis, hc, hpf, if_pos hund]⟩
          · exact ⟨"justification text not found in raw text",
              by simp only [parseAnalysis, hc, hpf, if_neg hund, h]⟩

/-- C6 witness: a gibberish input with neither labeled line produces the
parse-error result with score 0 and empty narrative. -/
theorem c6_parse_contract_witness :
    (findConf "Random gibberish text 12345 no structure at all".data = none ∨
      findJust "Random gibberish text 12345 no structure at all".data = none) ∧
    ∃ e, parseAnalysis "Random gibberish text 12345 no structure at all" = (0, "", some e) :=
  ⟨Or.inl (by decide), c6_parse_contract.2 _ (Or.inl (by decide))⟩

/-- C7 counterexample: the input "Confidence Score: 2 …" is accepted by
`parseAnalysis` (no error) yet yields score 200, outside 0–100 — the
regex does not restrict the matched value to 0.0–1.0 (2.0 and 200.0 are
exact in binary64, so no rounding is involved). -/
theorem c7_counterexample :
    parseAnalysis "Confidence Score: 2\n\nJustification: looks fine."
      = (200, "looks fine.", none) ∧ ¬((200 : ℤ) ≤ 100) :=
  ⟨by decide, by decide⟩

/-- C7 (amended): for every analysis text `parseAnalysis` accepts, the
returned score is `int(float64(value) * 100)` — the matched decimal
correctly rounded to binary64, multiplied by 100 in binary64, and
truncated toward zero (so e.g. "0.29" scores 28, not ⌊0.29·100⌋ = 29) —
and whenever the matched confidence value is at most 1.0 the score lies
in 0–100; but the regex also accepts values above 1.0, which produce
scores above 100 (see the counterexample). -/
theorem c7_parsed_score_range :
    ∀ t : String, (parseAnalysis t).2.2 = none →
      ∃ cap m s, findConf t.data = some cap ∧
        goParseFloat cap = .fin m s ∧
        (parseAnalysis t).1 = f64TruncToInt (f64Mul100 (.fin m s)) ∧
        (numValue cap ≤ 1 →
          0 ≤ (parseAnalysis t).1 ∧ (parseAnalysis t).1 ≤ 100) := by
  intro t hacc
  cases hc : findConf t.data with
  | none =>
    simp only [parseAnalysis, hc] at hacc
    cases hacc
  | some cap =>
    cases hpf : goParseFloat cap with
    | inf =>
      simp only [parseAnalysis, hc, hpf] at hacc
      cases hacc
    | fin m s =>
      by_cases hund : m = 0 ∧ capMantissa cap ≠ 0
      · simp only [parseAnalysis, hc, hpf, if_pos hund] at hacc
        cases hacc
      · cases hj : findJust t.data with
        | none =>
          simp only [parseAnalysis, hc, hpf, if_neg hund, hj] at hacc
          cases hacc
        | some ncap =>
          have hsc : (parseAnalysis t).1 = f64TruncToInt (f64Mul100 (.fin m s)) := by
            simp only [parseAnalysis, hc, hpf, if_neg hund, hj]
          refine ⟨cap, m, s, rfl, hpf, hsc, ?_⟩
          intro hv
          obtain ⟨m1, s1, g1, g2, g3⟩ :=
            goParseFloat_le_one cap ((numValue_le_one_iff cap).mp hv)
          rw [hpf] at g1
          injection g1 with hm1 hs1
          subst hm1
          subst hs1
          obtain ⟨m2, s2, q1, q2, q3⟩ := f64Mul100_le m s g2 g3
          rw [hsc, q1]
          exact f64TruncToInt_le m2 s2 q2 q3

/-- C7 witness: the accepted input "Confidence Score: 0.5 …" (0.5 and 50
exact in binary64) goes through the float pipeline and scores 50, inside
0–100. -/
theorem c7_parsed_score_range_witness :
    ((parseAnalysis "Confidence Score: 0.5\n\nJustification: ok.").2.2 = none) ∧
    ∃ cap m s, findConf "Confidence Score: 0.5\n\nJustification: ok.".data = some cap ∧
      goParseFloat cap = .fin m s ∧
      (parseAnalysis "Confidence Score: 0.5\n\nJustification: ok.").1
        = f64TruncToInt (f64Mul100 (.fin m s)) ∧
      (numValue cap ≤ 1 →
        0 ≤ (parseAnalysis "Confidence Score: 0.5\n\nJustification: ok.").1 ∧
        (parseAnalysis "Confidence Score: 0.5\n\nJustification: ok.").1 ≤ 100) :=
  ⟨by decide, c7_parsed_score_range _ (by decide)⟩

/-! ## Certificate generator (internal/certificate, `Generate`)

`Generate` digests `asset.ID + asset.CreatedAt.Format(time.RFC3339)` with
SHA-256 and hex-encodes the result as the credential's proof value, and
clamps the 0–100 originality score into the 1–10 rating scale. -/

/-- Go `time.Time`: Unix seconds plus nanoseconds, taken in UTC (the
worker runs with a UTC clock; zone handling is not modelled). -/
structure GoTime where
  sec : ℤ
  nsec : ℕ
deriving DecidableEq

def pad2 (n : ℕ) : String := if n < 10 then "0" ++ toString n else toString n

/-- Four-digit zero-padded year (`%04d`), years 0–9999. -/
def pad4 (y : ℤ) : String :=
  let m := y.toNat
  if m < 10 then "000" ++ toString m
  else if m < 100 then "00" ++ toString m
  else if m < 1000 then "0" ++ toString m
  else toString m

/-- Standard civil-from-days calendar conversion (proleptic Gregorian):
days since 1970-01-01 to (year, month, day). -/
def civilFromDays (z : ℤ) : ℤ × ℕ × ℕ :=
  let zs := z + 719468
  let era := Int.fdiv zs 146097
  let doe := (zs - era * 146097).toNat
  let yoe := (doe - doe / 1460 + doe / 36524 - doe / 146096) / 365
  let y := (yoe : ℤ) + era * 400
  let doy := doe - (365 * yoe + yoe / 4 - yoe / 100)
  let mp := (5 * doy + 2) / 153
  let d := doy - (153 * mp + 2) / 5 + 1
  let mth := if mp < 10 then mp + 3 else mp - 9
  (if mth ≤ 2 then y + 1 else y, mth, d)

/-- Modelled from the spec / Go standard library:
`time.Time.Format(time.RFC3339)` for a UTC time.  The RFC3339 layout
`2006-01-02T15:04:05Z07:00` renders whole seconds only — the nanosecond
field is not part of the output — and renders the UTC zone as `Z`. -/
def fmtRFC3339 (t : GoTime) : String :=
  let days := Int.fdiv t.sec 86400
  let sod := (Int.emod t.sec 86400).toNat
  let c := civilFromDays days
  pad4 c.1 ++ "-" ++ pad2 c.2.1 ++ "-" ++ pad2 c.2.2 ++ "T" ++
    pad2 (sod / 3600) ++ ":" ++ pad2 (sod % 3600 / 60) ++ ":" ++ pad2 (sod % 60) ++ "Z"

/-! ### SHA-256 (crypto/sha256.Sum256) over byte lists, 32-bit words as
`ℕ` reduced mod 2^32. -/

def rotr32 (n x : ℕ) : ℕ := ((x >>> n) ||| (x <<< (32 - n))) % 2 ^ 32

def sha256K : List ℕ :=
  [1116352408, 1899447441, 3049323471, 3921009573, 961987163, 1508970993,
   2453635748, 2870763221, 3624381080, 310598401, 607225278, 1426881987,
   1925078388, 2162078206, 2614888103, 3248222580, 3835390401, 4022224774,
   264347078, 604807628, 770255983, 1249150122, 1555081692, 1996064986,
   2554220882, 2821834349, 2952996808, 3210313671, 3336571891, 3584528711,
   113926993, 338241895, 666307205, 773529912, 1294757372, 1396182291,
   1695183700, 1986661051, 2177026350, 2456956037, 2730485921, 2820302411,
   3259730800, 3345764771, 3516065817, 3600352804, 4094571909, 275423344,
   430227734, 506948616, 659060556, 883997877, 958139571, 1322822218,
   1537002063, 1747873779, 1955562222, 2024104815, 2227730452, 2361852424,
   2428436474, 2756734187, 3204031479, 3329325298]

def sha256H0 : List ℕ :=
  [1779033703, 3144134277, 1013904242, 2773480762, 1359893119, 2600822924,
   528734635, 1541459225]

/-- `n`-byte big-endian encoding of `x`. -/
def toBytesBE (n x : ℕ) : List ℕ :=
  (List.range n).reverse.map fun i => (x >>> (8 * i)) % 256

/-- SHA-256 padding: `0x80`, zeros to 56 mod 64, 8-byte bit length. -/
def shaPad (msg : List ℕ) : List ℕ :=
  msg ++ 0x80 :: List.replicate ((119 - msg.length % 64) % 64) 0 ++ toBytesBE 8 (8 * msg.length)

def chunksAux : ℕ → List ℕ → List (List ℕ)
  | 0, _ => []
  | _ + 1, [] => []
  | n + 1, l => l.take 64 :: chunksAux n (l.drop 64)

def bytesToWord (bs : List ℕ) : ℕ := bs.foldl (fun a b => a * 256 + b) 0

def wordsOfChunk (c : List ℕ) : List ℕ :=
  (List.range 16).map fun i => bytesToWord ((c.drop (4 * i)).take 4)

/-- Message-schedule extension: append `n` further words. -/
def extendW : ℕ → List ℕ → List ℕ
  | 0, w => w
  | n + 1, w =>
    let i := w.length
    let w15 := w.getD (i - 15) 0
    let w2 := w.getD (i - 2) 0
    let s0 := rotr32 7 w15 ^^^ rotr32 18 w15 ^^^ (w15 >>> 3)
    let s1 := rotr32 17 w2 ^^^ rotr32 19 w2 ^^^ (w2 >>> 10)
    extendW n (w ++ [(w.getD (i - 16) 0 + s0 + w.getD (i - 7) 0 + s1) % 2 ^ 32])

def compressStep (st : List ℕ) (kw : ℕ × ℕ) : List ℕ :=
  match st with
  | [a, b, c, d, e, f, g, h] =>
    let s1 := rotr32 6 e ^^^ rotr32 11 e ^^^ rotr32 25 e
    let ch := (e &&& f) ^^^ ((0xffffffff ^^^ e) &&& g)
    let temp1 := (h + s1 + ch + kw.1 + kw.2) % 2 ^ 32
    let s0 := rotr32 2 a ^^^ rotr32 13 a ^^^ rotr32 22 a
    let maj := (a &&& b) ^^^ (a &&& c) ^^^ (b &&& c)
    let temp2 := (s0 + maj) % 2 ^ 32
    [(temp1 + temp2) % 2 ^ 32, a, b, c, (d + temp1) % 2 ^ 32, e, f, g]
  | _ => st

def compressChunk (h : List ℕ) (c : List ℕ) : List ℕ :=
  let st := (sha256K.zip (extendW 48 (wordsOfChunk c))).foldl compressStep h
  (h.zip st).map fun p => (p.1 + p.2) % 2 ^ 32

/-- SHA-256 digest of a byte list, as 32 bytes. -/
def sha256 (msg : List ℕ) : List ℕ :=
  let padded := shaPad msg
  ((chunksAux padded.length padded).foldl compressChunk sha256H0).foldr
    (fun w acc => toBytesBE 4 w ++ acc) []

def hexDigit (n : ℕ) : Char := if n < 10 then Char.ofNat (48 + n) else Char.ofNat (87 + n)

/-- Lowercase hex encoding (`fmt.Sprintf "%x"`). -/
def hexEncode (bs : List ℕ) : String :=
  String.mk (bs.foldr (fun b acc => hexDigit (b / 16) :: hexDigit (b % 16) :: acc) [])

/-- UTF-8 bytes of a character (Go strings are UTF-8). -/
def utf8Bytes (c : Char) : List ℕ :=
  let n := c.toNat
  if n < 0x80 then [n]
  else if n < 0x800 then [0xc0 + n / 64, 0x80 + n % 64]
  else if n < 0x10000 then [0xe0 + n / 4096, 0x80 + n / 64 % 64, 0x80 + n % 64]
  else [0xf0 + n / 262144, 0x80 + n / 4096 % 64, 0x80 + n / 64 % 64, 0x80 + n % 64]

def strToBytes (s : String) : List ℕ :=
  s.data.foldr (fun c acc => utf8Bytes c ++ acc) []

/-! ### Data model (internal/models.Asset, certificate structures) -/

/-- `models.Asset` (part_001) / the worker's `Asset` struct: the fields
the certificate generator and pipeline read.  `originality_score` is a Go
`int`, modelled as `ℤ`. -/
structure Asset where
  id : String
  userId : String
  status : String
  createdAt : GoTime
  rawAnalysis : String
  originalityScore : ℤ
  narrative : String
  embedding : List ℤ
deriving DecidableEq

structure AuthenticityRating where
  type : String
  ratingValue : ℤ
  bestRating : ℤ
  worstRating : ℤ
deriving DecidableEq

structure CredentialSubject where
  id : String
  type : String
  creator : String
  authenticityRating : AuthenticityRating
  authenticityNarrative : String
deriving DecidableEq

structure Proof where
  type : String
  created : String
  proofPurpose : String
  proofValue : String
deriving DecidableEq

structure VerifiableCredential where
  context : List String
  type : List String
  issuer : String
  issuanceDate : String
  credentialSubject : CredentialSubject
  proof : Proof
deriving DecidableEq

/-- The digest preimage: `asset.ID + asset.CreatedAt.Format(time.RFC3339)`
(part_003 line 18). -/
def proofData (a : Asset) : String := a.id ++ fmtRFC3339 a.createdAt

/-- `fmt.Sprintf("%x", sha256.Sum256([]byte(proofData)))`. -/
def proofValue (a : Asset) : String := hexEncode (sha256 (strToBytes (proofData a)))

/-- `certificate.Generate` (part_003 lines 12–77).  `now` is injected for
`time.Now()` (issuance/proof-created timestamps); the proof value depends
only on the asset. -/
def Generate (asset : Option Asset) (now : GoTime) : Except String VerifiableCredential :=
  match asset with
  | none => .error "asset cannot be nil"
  | some a =>
    let ratingValue : ℤ :=
      if a.originalityScore < 1 then 1
      else if a.originalityScore > 10 then 10
      else a.originalityScore
    .ok
      { context := ["https://www.w3.org/2018/credentials/v1", "https://schema.org"]
        type := ["VerifiableCredential", "ProofPixAuthenticityCredential"]
        issuer := "https://proofpix.com"
        issuanceDate := fmtRFC3339 now
        credentialSubject :=
          { id := "urn:proofpix:asset:" ++ a.id
            type := "ImageAuthenticityAssertion"
            creator := a.userId
            authenticityRating :=
              { type := "Rating", ratingValue := ratingValue
                bestRating := 10, worstRating := 1 }
            authenticityNarrative :=
              if a.narrative = "" then a.rawAnalysis else a.narrative }
        proof :=
          { type := "DataIntegrityProof"
            created := fmtRFC3339 now
            proofPurpose := "assertionMethod"
            proofValue := proofValue a } }

/-! ### C8, C9 -/

theorem string_append_inj (s1 t1 s2 t2 : String)
    (h : s1 ++ t1 = s2 ++ t2) (ht : t1.length = t2.length) :
    s1 = s2 ∧ t1 = t2 := by
  have hd : s1.data ++ t1.data = s2.data ++ t2.data := by
    rw [← String.data_append, ← String.data_append, h]
  obtain ⟨h1, h2⟩ := List.append_inj' hd ht
  constructor
  · cases s1; cases s2; exact congrArg String.mk h1
  · cases t1; cases t2; exact congrArg String.mk h2

/-- Two concrete assets identical except for the sub-second part of the
creation time (and a third with a different id), used to settle C8. -/
def certAsset1 : Asset :=
  { id := "test-asset-123", userId := "user-456", status := "completed"
    createdAt := ⟨1705314600, 0⟩, rawAnalysis := "raw", originalityScore := 8
    narrative := "ok", embedding := [] }

def certAsset2 : Asset := { certAsset1 with createdAt := ⟨1705314600, 500000000⟩ }

def certAsset3 : Asset := { certAsset1 with id := "other-asset-999" }

/-- C8 counterexample: `certAsset1` and `certAsset2` have different
creation times (nanoseconds 0 vs 500000000 within the same second), yet
their proof-value digests are identical, because RFC3339 renders whole
seconds only — refuting "differing creation time yields a different
digest". -/
theorem c8_counterexample :
    certAsset1.createdAt ≠ certAsset2.createdAt ∧
    proofValue certAsset1 = proofValue certAsset2 := by
  constructor
  · decide
  · unfold proofValue
    exact congrArg (fun s => hexEncode (sha256 (strToBytes s))) (by decide)

/-- C8 (amended): the proof value produced by `Generate` is the SHA-256
digest of `asset_id ++ RFC3339(created_at)` and depends on nothing else:
two assets with equal id and equal rendered (whole-second) creation time
always get identical digests — in particular times differing only below
one second collide — while assets differing in id or in rendered creation
time have different digest preimages (digest distinctness itself is
SHA-256 collision resistance, not provable). -/
theorem c8_certificate_determinism :
    (∀ (a : Asset) (now : GoTime) (c : VerifiableCredential),
      Generate (some a) now = .ok c → c.proof.proofValue = proofValue a)
    ∧ (∀ a1 a2 : Asset, a1.id = a2.id →
        fmtRFC3339 a1.createdAt = fmtRFC3339 a2.createdAt →
        proofValue a1 = proofValue a2)
    ∧ (∀ a1 a2 : Asset,
        (fmtRFC3339 a1.createdAt).length = 20 →
        (fmtRFC3339 a2.createdAt).length = 20 →
        (a1.id ≠ a2.id ∨ fmtRFC3339 a1.createdAt ≠ fmtRFC3339 a2.createdAt) →
        proofData a1 ≠ proofData a2) := by
  refine ⟨?_, ?_, ?_⟩
  · intro a now c h
    simp only [Generate, Except.ok.injEq] at h
    rw [← h]
  · intro a1 a2 hid hfmt
    unfold proofValue proofData
    rw [hid, hfmt]
  · intro a1 a2 h1 h2 hne heq
    unfold proofData at heq
    have hlen : (fmtRFC3339 a1.createdAt).length = (fmtRFC3339 a2.createdAt).length := by
      rw [h1, h2]
    obtain ⟨hi, hf⟩ := string_append_inj _ _ _ _ heq hlen
    rcases hne with hne | hne
    · exact hne hi
    · exact hne hf

/-- C8 witness: the three parts evaluated on the concrete assets — the
generated credential of `certAsset1` carries `proofValue certAsset1`;
equal id and rendered time give equal digests; `certAsset3` (different
id, same time) has a different digest preimage. -/
theorem c8_certificate_determinism_witness :
    (∃ c, Generate (some certAsset1) ⟨1705314600, 0⟩ = .ok c ∧
      c.proof.proofValue = proofValue certAsset1) ∧
    proofValue certAsset1 = proofValue certAsset2 ∧
    ((fmtRFC3339 certAsset1.createdAt).length = 20 ∧
      (fmtRFC3339 certAsset3.createdAt).length = 20 ∧
      certAsset1.id ≠ certAsset3.id ∧
      proofData certAsset1 ≠ proofData certAsset3) := by
  refine ⟨⟨_, rfl, c8_certificate_determinism.1 certAsset1 ⟨1705314600, 0⟩ _ rfl⟩,
    c8_certificate_determinism.2.1 certAsset1 certAsset2 rfl (by decide),
    by decide, by decide, by decide,
    c8_certificate_determinism.2.2 certAsset1 certAsset3 (by decide) (by decide)
      (Or.inl (by decide))⟩

/-- C9: for every (non-nil) Asset, `Generate` succeeds and sets the
rating value to the 0–100 originality score clamped into [1, 10] with no
rescaling — `max 1 (min 10 score)`, i.e. below 1 becomes 1, above 10
becomes 10, and scores already in 1..10 are used unchanged — with
BestRating 10 and WorstRating 1. -/
theorem c9_rating_clamp (a : Asset) (now : GoTime) :
    ∃ c, Generate (some a) now = .ok c ∧
      c.credentialSubject.authenticityRating.ratingValue
        = max 1 (min 10 a.originalityScore) ∧
      c.credentialSubject.authenticityRating.bestRating = 10 ∧
      c.credentialSubject.authenticityRating.worstRating = 1 := by
  refine ⟨_, rfl, ?_, rfl, rfl⟩
  show (if a.originalityScore < 1 then (1 : ℤ)
    else if a.originalityScore > 10 then 10 else a.originalityScore)
      = max 1 (min 10 a.originalityScore)
  split_ifs <;> omega

/-! ## Pipeline orchestrator (cmd/fingerprint-worker/main.go, `processImage`)

`processImage` is embedded as a pure function of the outcomes of its
external calls (image fetch, the two fork-joined Vertex calls, the
Firestore/GCS writes, the Trillian append), which are supplied in a
`PipelineEnv`; the function returns the resulting index-manager state and
a record of which effects were performed. -/

/-- Outcomes of the external collaborators, one per call site in
`processImage`, in program order. -/
structure PipelineEnv where
  /-- GCS image download (`uploads/{user}/{asset}.jpg`). -/
  fetch : Except String (List ℕ)
  /-- `getAuthenticityAnalysis` result (fork-joined). -/
  analysis : Except String String
  /-- `getEmbedding` result (fork-joined). -/
  embedding : Except String (List ℤ)
  /-- Firestore `Set` of the Asset document. -/
  saveAssetOk : Bool
  /-- `json.MarshalIndent` of the credential. -/
  marshalOk : Bool
  /-- GCS upload of the certificate JSON. -/
  certSaveOk : Bool
  /-- Parsed `TRILLIAN_LOG_ID` when both Trillian env vars are set and the
  id parses; `none` disables the log stages. -/
  trillianCfg : Option ℤ
  /-- Trillian `QueueLeaf`, returning the assigned leaf index. -/
  queueLeaf : Except String ℤ
  /-- `GOOGLE_CLOUD_PROJECT` present for the leaf-index write-back. -/
  projectIdSet : Bool
  /-- Firestore partial update of `trillian_leaf_index`. -/
  leafUpdateOk : Bool
  /-- `certificate.GenerateBadge`. -/
  badgeGenOk : Bool
  /-- GCS upload of the badge PNG. -/
  badgeSaveOk : Bool
  /-- `time.Now()` when the Asset record is built. -/
  now : GoTime

/-- Which effects `processImage` performed, plus the final index-manager
state and the score/narrative it computed. -/
structure PipelineResult where
  manager : IndexManager
  searchInvoked : Bool
  addInvoked : Bool
  savedAsset : Option Asset
  certGenerated : Bool
  certSaved : Bool
  leafQueued : Bool
  leafIndexRecorded : Bool
  badgeSaved : Bool
  score : ℤ
  narrative : String
deriving DecidableEq

/-- `processImage` (main.go lines 163–385).  Stage structure: fetch
failure aborts with no effects; analysis and embedding outcomes are both
captured (join, no cancellation); parse failure falls back to raw text
and score 0; when the embedding succeeded, `Search` (observational) and
`Add` are invoked regardless of the analysis outcome, an `Add` error
being logged and non-fatal; the Asset document is written only when both
calls succeeded; certificate, Trillian append, leaf-index record and
badge then form the nested best-effort chain of the source. -/
def processImage (mgr : IndexManager) (userId assetId : String)
    (env : PipelineEnv) : PipelineResult :=
  match env.fetch with
  | .error _ =>
    { manager := mgr
      searchInvoked := false
      addInvoked := false
      savedAsset := none
      certGenerated := false
      certSaved := false
      leafQueued := false
      leafIndexRecorded := false
      badgeSaved := false
      score := 0
      narrative := "" }
  | .ok _ =>
    let parsed : ℤ × String :=
      match env.analysis with
      | .error _ => (0, "")
      | .ok text =>
        match parseAnalysis text with
        | (s, n, none) => (s, n)
        | (_, _, some _) => (0, text)
    let idxStep : IndexManager × Bool :=
      match env.embedding with
      | .error _ => (mgr, false)
      | .ok v =>
        let mgr2 :=
          match mgr.add assetId v with
          | .ok m2 => m2
          | .error _ => mgr
        (mgr2, true)
    let base : PipelineResult :=
      { manager := idxStep.1
        searchInvoked := idxStep.2
        addInvoked := idxStep.2
        savedAsset := none
        certGenerated := false
        certSaved := false
        leafQueued := false
        leafIndexRecorded := false
        badgeSaved := false
        score := parsed.1
        narrative := parsed.2 }
    match env.analysis with
    | .error _ => base
    | .ok text =>
      match env.embedding with
      | .error _ => base
      | .ok v =>
        let asset : Asset :=
          { id := assetId
            userId := userId
            status := "completed"
            createdAt := env.now
            rawAnalysis := text
            originalityScore := parsed.1
            narrative := parsed.2
            embedding := v }
        if env.saveAssetOk then
          match Generate (some asset) env.now with
          | .error _ => { base with savedAsset := some asset }
          | .ok _cred =>
            if env.marshalOk then
              if env.certSaveOk then
                let leaf : Bool × Bool :=
                  match env.trillianCfg with
                  | none => (false, false)
                  | some _ =>
                    match env.queueLeaf with
                    | .error _ => (false, false)
                    | .ok _ => (true, env.projectIdSet && env.leafUpdateOk)
                { base with
                  savedAsset := some asset
                  certGenerated := true
                  certSaved := true
                  leafQueued := leaf.1
                  leafIndexRecorded := leaf.2
                  badgeSaved := env.badgeGenOk && env.badgeSaveOk }
              else { base with savedAsset := some asset, certGenerated := true }
            else { base with savedAsset := some asset, certGenerated := true }
        else base

/-! ### C2 -/

/-- A concrete environment where the analysis call fails but the
embedding call succeeds. -/
def envAnalysisFails : PipelineEnv :=
  { fetch := .ok []
    analysis := .error "model unavailable"
    embedding := .ok [7]
    saveAssetOk := true
    marshalOk := true
    certSaveOk := true
    trillianCfg := some 1
    queueLeaf := .ok 0
    projectIdSet := true
    leafUpdateOk := true
    badgeGenOk := true
    badgeSaveOk := true
    now := ⟨0, 0⟩ }

/-- A concrete environment where the analysis call succeeds but the
embedding call fails. -/
def envEmbeddingFails : PipelineEnv :=
  { envAnalysisFails with
    analysis := .ok "Confidence Score: 0.9\n\nJustification: fine."
    embedding := .error "quota exceeded" }

/-- C2 counterexample: when the analysis fails but the embedding
succeeds, `processImage` does invoke `Search` and `Add` (they are gated
only on the embedding outcome), refuting "Search and Add are not
invoked". -/
theorem c2_counterexample :
    envAnalysisFails.analysis = .error "model unavailable" ∧
    envAnalysisFails.embedding = .ok [7] ∧
    (processImage freshManager "u1" "a1" envAnalysisFails).searchInvoked = true ∧
    (processImage freshManager "u1" "a1" envAnalysisFails).addInvoked = true :=
  ⟨rfl, rfl, rfl, rfl⟩

/-- C2 (amended): for every asset whose Analyze stage has exactly one of
the two fork-joined calls fail, no Asset document is written and no
certificate, transparency-log entry, leaf-index record or badge is
produced; but `Search` and `Add` are invoked exactly when the embedding
call succeeded — they are skipped when the embedding fails, and they are
invoked (against the live index) when only the analysis fails. -/
theorem c2_commit_gating
    (mgr : IndexManager) (userId assetId : String) (env : PipelineEnv)
    (bs : List ℕ) (hf : env.fetch = .ok bs)
    (hone : ((∃ e, env.analysis = .error e) ∧ (∃ v, env.embedding = .ok v)) ∨
      ((∃ t, env.analysis = .ok t) ∧ (∃ e, env.embedding = .error e))) :
    (processImage mgr userId assetId env).savedAsset = none ∧
    (processImage mgr userId assetId env).certGenerated = false ∧
    (processImage mgr userId assetId env).certSaved = false ∧
    (processImage mgr userId assetId env).leafQueued = false ∧
    (processImage mgr userId assetId env).leafIndexRecorded = false ∧
    (processImage mgr userId assetId env).badgeSaved = false ∧
    ((processImage mgr userId assetId env).searchInvoked = true
      ↔ ∃ v, env.embedding = .ok v) ∧
    ((processImage mgr userId assetId env).addInvoked = true
      ↔ ∃ v, env.embedding = .ok v) := by
  rcases hone with ⟨⟨e, ha⟩, ⟨v, he⟩⟩ | ⟨⟨t, ha⟩, ⟨e, he⟩⟩ <;>
    simp [processImage, hf, ha, he]

/-- C2 witness: both one-failure scenarios evaluated concretely — the
gate holds, and the Search/Add flags match the embedding outcome in each
direction. -/
theorem c2_commit_gating_witness :
    (envAnalysisFails.fetch = .ok [] ∧
      ((processImage freshManager "u1" "a1" envAnalysisFails).savedAsset = none ∧
        (processImage freshManager "u1" "a1" envAnalysisFails).certGenerated = false ∧
        (processImage freshManager "u1" "a1" envAnalysisFails).certSaved = false ∧
        (processImage freshManager "u1" "a1" envAnalysisFails).leafQueued = false ∧
        (processImage freshManager "u1" "a1" envAnalysisFails).leafIndexRecorded = false ∧
        (processImage freshManager "u1" "a1" envAnalysisFails).badgeSaved = false ∧
        ((processImage freshManager "u1" "a1" envAnalysisFails).searchInvoked = true
          ↔ ∃ v, envAnalysisFails.embedding = .ok v) ∧
        ((processImage freshManager "u1" "a1" envAnalysisFails).addInvoked = true
          ↔ ∃ v, envAnalysisFails.embedding = .ok v))) ∧
    (envEmbeddingFails.fetch = .ok [] ∧
      ((processImage freshManager "u1" "a1" envEmbeddingFails).savedAsset = none ∧
        (processImage freshManager "u1" "a1" envEmbeddingFails).certGenerated = false ∧
        (processImage freshManager "u1" "a1" envEmbeddingFails).certSaved = false ∧
        (processImage freshManager "u1" "a1" envEmbeddingFails).leafQueued = false ∧
        (processImage freshManager "u1" "a1" envEmbeddingFails).leafIndexRecorded = false ∧
        (processImage freshManager "u1" "a1" envEmbeddingFails).badgeSaved = false ∧
        ((processImage freshManager "u1" "a1" envEmbeddingFails).searchInvoked = true
          ↔ ∃ v, envEmbeddingFails.embedding = .ok v) ∧
        ((processImage freshManager "u1" "a1" envEmbeddingFails).addInvoked = true
          ↔ ∃ v, envEmbeddingFails.embedding = .ok v))) :=
  ⟨⟨rfl, c2_commit_gating freshManager "u1" "a1" envAnalysisFails [] rfl
      (Or.inl ⟨⟨_, rfl⟩, ⟨_, rfl⟩⟩)⟩,
    ⟨rfl, c2_commit_gating freshManager "u1" "a1" envEmbeddingFails [] rfl
      (Or.inr ⟨⟨_, rfl⟩, ⟨_, rfl⟩⟩)⟩⟩

end ProofPix
